import Mathlib

/-!
Shallow embedding of the MRB Video Downloader backend service
(`src/main.py`, FastAPI): the format selector `pick_best_mp4_format`, the
delivery-path decision of `get_video`, the fetch-transcode pipeline
`download_and_convert_with_ytdlp`, and the filename sanitizer
`sanitize_filename`.  Pure dictionary manipulation is translated to
functions on explicit records; the effectful pipeline is translated to a
function from an environment (which fixes the outcome of each external
step) to the trace of workspace events plus the final outcome.
-/

/-- The fixed mobile User-Agent string configured at module top level of
`src/main.py` (the two adjacent Python string literals concatenated). -/
def USER_AGENT : String :=
  "Mozilla/5.0 (Linux; Android 10; SM-G973F) AppleWebKit/537.36 (KHTML, like Gecko) Chrome/125.0.0.0 Mobile Safari/537.36"

/-- One entry of `info["formats"]` as consumed by `pick_best_mp4_format` and
`get_video`.  Only the keys the code reads are modelled; a key that is absent
from the Python dict reads as `none` (`dict.get`).  `tbr` is the bitrate
(a Python float, modelled as a rational).  `httpHeaders` models the stream's
required HTTP headers (`http_headers` in the metadata), which this code never
reads when proxying. -/
structure Format where
  ext : Option String
  vcodec : Option String
  acodec : Option String
  protocol : Option String
  tbr : Option ℚ
  url : Option String
  httpHeaders : List (String × String)
deriving DecidableEq

/-- Python `f.get("tbr") or 0`: a missing bitrate counts as `0` (and a stored
`0` stays `0`, so `Option.getD` is an exact translation). -/
def tbrVal (f : Format) : ℚ := f.tbr.getD 0

/-- The `bad_protocols` set of `pick_best_mp4_format`. -/
def bad_protocols : List String := ["m3u8", "m3u8_native", "http_dash_segments", "dash"]

/-- Python `str.lower()` character by character (protocol tags are ASCII,
where Unicode and ASCII lowering agree). -/
def lowerStr (s : String) : String := ⟨s.data.map Char.toLower⟩

/-- The filter predicate inside `pick_best_mp4_format`: container `mp4`,
video codec present and not `"none"`, audio codec present and not `"none"`,
and `(f.get("protocol") or "").lower()` not a segmented protocol.  This is
the "progressive-playable" invariant of the specification. -/
def progressivePlayable (f : Format) : Bool :=
  f.ext == some "mp4" &&
  !(f.vcodec == none || f.vcodec == some "none") &&
  !(f.acodec == none || f.acodec == some "none") &&
  !(bad_protocols.contains (lowerStr (f.protocol.getD "")))

/-- The ordering used by `sorted(mp4s, key=lambda f: (f.get("tbr") or 0),
reverse=True)`: descending bitrate.  Python's sort is stable, so the head of
the sorted list is the first element attaining the maximal key; a stable
insertion sort below reproduces exactly that. -/
def tbrGe (a b : Format) : Prop := tbrVal b ≤ tbrVal a

instance : DecidableRel tbrGe :=
  fun a b => inferInstanceAs (Decidable (tbrVal b ≤ tbrVal a))

instance : IsTotal Format tbrGe := ⟨fun a b => le_total (tbrVal b) (tbrVal a)⟩

instance : IsTrans Format tbrGe := ⟨fun _ _ _ hab hbc => le_trans hbc hab⟩

/-- `pick_best_mp4_format` from `src/main.py`: filter to progressive
playable formats, sort by bitrate descending (stable) and return the first
element, or `None` when the filtered list is empty. -/
def pick_best_mp4_format (formats : List Format) : Option Format :=
  (List.insertionSort tbrGe (formats.filter progressivePlayable)).head?

/-- Outcome of the single outbound proxy attempt inside `get_video`:
either the upstream responded with some status code (on which
`r.raise_for_status()` raises `httpx.HTTPStatusError`, a subclass of
`httpx.HTTPError`, iff the status is at least 400), or a network-level
failure occurred before a response was obtained (also an `httpx.HTTPError`). -/
inductive ProxyOutcome
  | response (status : Nat)
  | networkError
deriving DecidableEq

/-- The delivery path `get_video` ends up executing: either the direct
proxy stream (carrying the request headers sent upstream), or the
fetch-transcode pipeline. -/
inductive Delivery
  | proxied (requestHeaders : List (String × String))
  | transcoded
deriving DecidableEq

/-- The outbound request headers actually configured in `get_video`:
`httpx.AsyncClient(headers={"User-Agent": USER_AGENT}, ...)` with no
per-request headers added on the `client.stream` call. -/
def proxyRequestHeaders : List (String × String) := [("User-Agent", USER_AGENT)]

/-- Python truthiness of `fmt.get("url")`: the key must be present and the
string non-empty. -/
def fmtUrlTruthy (f : Format) : Bool :=
  match f.url with
  | some u => u != ""
  | none => false

/-- The delivery-path decision of `get_video` (stages 2 and 3, after the
metadata probe succeeded): if `pick_best_mp4_format` found a format with a
truthy `url`, one proxy attempt is made; `httpx.HTTPError` (status at least
400 via `raise_for_status`, or a network failure) is caught with `pass` and
control falls through to the fetch-transcode stage.  Otherwise the proxy is
never attempted and the fetch-transcode stage runs directly. -/
def get_video_delivery (formats : List Format) (pr : ProxyOutcome) : Delivery :=
  match pick_best_mp4_format formats with
  | some f =>
    if fmtUrlTruthy f then
      match pr with
      | .response s => if 400 ≤ s then .transcoded else .proxied proxyRequestHeaders
      | .networkError => .transcoded
    else .transcoded
  | none => .transcoded

/-- How many outbound proxy attempts `get_video` makes on one request: the
code contains a single `client.stream` call guarded by `if fmt and
fmt.get("url")`, and the `except` handler only falls through, so the count
is 1 when the guard holds and 0 otherwise. -/
def proxyAttempts (formats : List Format) : Nat :=
  match pick_best_mp4_format formats with
  | some f => if fmtUrlTruthy f then 1 else 0
  | none => 0

/-- Predicate on the character class `[\\/:*?"<>|]` that the first `re.sub`
of `sanitize_filename` replaces. -/
def isBadChar (c : Char) : Bool :=
  c == '\\' || c == '/' || c == ':' || c == '*' || c == '?' || c == '"' ||
  c == '<' || c == '>' || c == '|'

/-- Python whitespace on the ASCII range: `str.strip()` and the regex `\s`
both use `Py_UNICODE_ISSPACE`, which on code points below 128 holds exactly
for 9-13 (tab through carriage return) and 28-32 (file separator through
space).  After the ASCII projection of line 66 only such characters can
occur. -/
def isSpaceChar (c : Char) : Bool :=
  (9 ≤ c.toNat && c.toNat ≤ 13) || (28 ≤ c.toNat && c.toNat ≤ 32)

/-- Line 66 of `src/main.py`: `unicodedata.normalize("NFKD", name)
.encode("ascii", "ignore").decode("ascii")`.  The parameter `kap` gives, for
each character, the ASCII residue of its NFKD decomposition (ASCII
characters have no decomposition, so faithful instances satisfy
`kap c = [c]` for ASCII `c`, and every produced character is ASCII; those
two facts are the hypotheses of the theorems below). -/
def nfkd_ascii (kap : Char → List Char) (l : List Char) : List Char :=
  l.flatMap kap

/-- The first `re.sub` of line 67: each maximal run of characters from the
reserved class is replaced by a single space.  The flag records whether the
previous character belonged to a run. -/
def replaceBadAux : Bool → List Char → List Char
  | _, [] => []
  | prevBad, c :: cs =>
    if isBadChar c then
      (if prevBad then replaceBadAux true cs else ' ' :: replaceBadAux true cs)
    else c :: replaceBadAux false cs

/-- The `re.sub(r"\s+", " ", name)` of line 68: each maximal whitespace run
becomes a single space. -/
def collapseAux : Bool → List Char → List Char
  | _, [] => []
  | prevSp, c :: cs =>
    if isSpaceChar c then
      (if prevSp then collapseAux true cs else ' ' :: collapseAux true cs)
    else c :: collapseAux false cs

/-- Leading-whitespace removal of `str.strip()`. -/
def dropLead (l : List Char) : List Char := l.dropWhile isSpaceChar

/-- Trailing-whitespace removal of `str.strip()`. -/
def dropTrail (l : List Char) : List Char :=
  (l.reverse.dropWhile isSpaceChar).reverse

/-- Python `str.strip()` (both ends). -/
def stripWs (l : List Char) : List Char := dropTrail (dropLead l)

/-- Lines 66-68 of `sanitize_filename`: ASCII projection, reserved
characters to spaces, strip, whitespace runs to single spaces. -/
def cleanName (kap : Char → List Char) (l : List Char) : List Char :=
  collapseAux false (stripWs (replaceBadAux false (nfkd_ascii kap l)))

/-- Character-list core of `sanitize_filename` (lines 64-71): clean the
name, default to `"video"` when the cleaned name is empty, then
unconditionally append `"." + ext` (the Python f-string
`f"{name}.{ext}"`, written here with escaped braces). -/
def sanitizeChars (kap : Char → List Char) (name ext : List Char) : List Char :=
  (if cleanName kap name = [] then "video".data else cleanName kap name) ++ '.' :: ext

/-- `sanitize_filename` from `src/main.py` on `String`. -/
def sanitize_filename (kap : Char → List Char) (name ext : String) : String :=
  ⟨sanitizeChars kap name.data ext.data⟩

/-- Boolean predicate: the list does not start with a whitespace character. -/
def noLead (l : List Char) : Bool :=
  match l with
  | [] => true
  | c :: _ => !isSpaceChar c

/-- Boolean predicate: no two adjacent whitespace characters; the flag says
whether the (virtual) previous character was whitespace. -/
def noAdjAux : Bool → List Char → Bool
  | _, [] => true
  | pb, c :: cs => !(pb && isSpaceChar c) && noAdjAux (isSpaceChar c) cs

/-- Concrete instance of the NFKD ASCII-residue function: identity on ASCII
(faithful to CPython, since ASCII characters have no NFKD decomposition) and
dropping everything else.  Used for closed evaluations on ASCII inputs,
where it agrees with CPython exactly. -/
def asciiKappa (c : Char) : List Char := if c.toNat ≤ 127 then [c] else []

/-- A file in the temporary workspace, with its name and modification
time. -/
structure WorkspaceFile where
  name : String
  mtime : Nat
deriving DecidableEq

/-- Environment fixing the outcome of every external step of one
`download_and_convert_with_ytdlp` call: whether `shutil.which("ffmpeg")`
resolves, whether the yt-dlp download/convert step raises, the stem
(basename without extension) of `ydl.prepare_filename(info)`, the files
present in the workspace after the external step, and the metadata fields
used for the display filename. -/
structure PipelineEnv where
  ffmpegAvailable : Bool
  downloadOk : Bool
  downloadedBasename : String
  workspaceFiles : List WorkspaceFile
  title : Option String
  videoId : Option String
deriving DecidableEq

/-- Observable workspace lifecycle events of one pipeline call. -/
inductive PipelineEvent
  | allocWorkspace
  | cleanupWorkspace
deriving DecidableEq

/-- Result of one pipeline call: `HTTPException(500)` before any workspace
exists because ffmpeg is missing; `HTTPException(500)` raised by the
catch-all handler after the download or artifact-resolution step failed; or
success with the artifact path (relative to the workspace) and the display
filename — on success the workspace is left alive for the background
cleanup task scheduled by `get_video`. -/
inductive PipelineOutcome
  | engineUnavailable (status : Nat)
  | downloadError (status : Nat)
  | ok (finalPath : String) (finalName : String)
deriving DecidableEq

/-- Python `a or b` on the string-valued `info.get(...)` chain: `None` and
the empty string are falsy. -/
def strOr (o : Option String) (d : String) : String :=
  match o with
  | some s => if s = "" then d else s
  | none => d

/-- The artifact name the pipeline looks for:
`os.path.splitext(os.path.basename(downloaded_path))[0] + ".mp4"`. -/
def exactMp4 (stem : String) : String := stem ++ ".mp4"

/-- `os.path.exists` within the workspace. -/
def hasFile (files : List WorkspaceFile) (nm : String) : Bool :=
  files.any (fun w => w.name == nm)

/-- Whether a workspace file is an `.mp4` artifact. -/
def isMp4File (w : WorkspaceFile) : Bool :=
  (".mp4".data).isSuffixOf w.name.data

/-- `download_and_convert_with_ytdlp` from `src/main.py` as a trace
semantics.  Faithful control flow: (1) if ffmpeg is not resolvable, raise
`HTTPException(500)` before `tempfile.mkdtemp` runs, so no workspace event
occurs; (2) allocate the workspace; (3) if the yt-dlp download/convert step
raises, the `except Exception` handler runs `_cleanup_dir(tmpdir)` and then
raises `HTTPException(500)`; (4) resolve the artifact as the workspace file
whose name is the download stem plus `.mp4` — if that exact file does not
exist, `FileNotFoundError` is raised, caught by the same handler
(cleanup, then 500); there is no fallback search over other `.mp4` files;
(5) on success return the artifact path and sanitized display name, leaving
the workspace alive. -/
def download_and_convert_with_ytdlp (kap : Char → List Char) (env : PipelineEnv) :
    List PipelineEvent × PipelineOutcome :=
  if env.ffmpegAvailable = false then
    ([], .engineUnavailable 500)
  else if env.downloadOk = false then
    ([.allocWorkspace, .cleanupWorkspace], .downloadError 500)
  else if hasFile env.workspaceFiles (exactMp4 env.downloadedBasename) then
    ([.allocWorkspace],
      .ok (exactMp4 env.downloadedBasename)
        (sanitize_filename kap (strOr env.title (strOr env.videoId "video")) "mp4"))
  else
    ([.allocWorkspace, .cleanupWorkspace], .downloadError 500)

/-- Example: a progressive-playable mp4 format with a direct URL and a
required `Referer` header recorded in its metadata. -/
def fmtH : Format :=
  { ext := some "mp4", vcodec := some "h264", acodec := some "aac",
    protocol := some "https", tbr := some 700,
    url := some "https://cdn.example/v.mp4",
    httpHeaders := [("Referer", "https://example.com/")] }

/-- Example: an HLS rendition (segmented protocol), not progressive
playable. -/
def fmtHls : Format :=
  { ext := some "mp4", vcodec := some "h264", acodec := some "aac",
    protocol := some "m3u8", tbr := some 2500,
    url := some "https://cdn.example/v.m3u8", httpHeaders := [] }

/-- Example: a progressive-playable format whose direct URL is absent. -/
def fmtNoUrl : Format :=
  { ext := some "mp4", vcodec := some "h264", acodec := some "aac",
    protocol := some "https", tbr := some 900, url := none,
    httpHeaders := [] }

/-- Example: a lower-bitrate progressive-playable format. -/
def fmtLow : Format :=
  { ext := some "mp4", vcodec := some "avc1", acodec := some "mp4a",
    protocol := some "http", tbr := some 300,
    url := some "https://cdn.example/lo.mp4", httpHeaders := [] }

/-- Example descriptor mixing progressive and segmented renditions. -/
def exA : List Format := [fmtLow, fmtH, fmtHls]

/-- Example pipeline environment whose download step fails. -/
def envFail : PipelineEnv :=
  { ffmpegAvailable := true, downloadOk := false, downloadedBasename := "clip",
    workspaceFiles := [], title := some "clip", videoId := some "c1" }

/-- Example pipeline environment without a resolvable ffmpeg binary. -/
def envEngine : PipelineEnv :=
  { ffmpegAvailable := false, downloadOk := true, downloadedBasename := "clip",
    workspaceFiles := [], title := some "clip", videoId := some "c1" }

/-- Example pipeline environment: the download succeeded but only produced
an `.mp4` artifact under a different basename than the download stem. -/
def envC5 : PipelineEnv :=
  { ffmpegAvailable := true, downloadOk := true, downloadedBasename := "clip",
    workspaceFiles := [⟨"other.mp4", 10⟩], title := some "clip",
    videoId := some "c1" }

/-- Example pipeline environment where the exact-basename artifact exists. -/
def envOk : PipelineEnv :=
  { ffmpegAvailable := true, downloadOk := true, downloadedBasename := "clip",
    workspaceFiles := [⟨"clip.mp4", 10⟩], title := some "clip",
    videoId := some "c1" }

/-- C1: whenever the descriptor contains at least one progressive-playable
stream, `pick_best_mp4_format` returns a stream of the descriptor that
itself satisfies the progressive-playable invariant and whose bitrate
(unknown bitrate counted as 0) is maximal among all progressive-playable
streams of the descriptor. -/
theorem pick_best_mp4_format_best (formats : List Format)
    (h : ∃ f ∈ formats, progressivePlayable f = true) :
    ∃ g, pick_best_mp4_format formats = some g ∧ g ∈ formats ∧
      progressivePlayable g = true ∧
      ∀ f ∈ formats, progressivePlayable f = true → tbrVal f ≤ tbrVal g := by
  obtain ⟨f0, hf0, hp0⟩ := h
  have hfil : f0 ∈ formats.filter progressivePlayable := List.mem_filter.mpr ⟨hf0, hp0⟩
  have hperm : List.Perm (List.insertionSort tbrGe (formats.filter progressivePlayable))
      (formats.filter progressivePlayable) := List.perm_insertionSort _ _
  have hsorted : List.Sorted tbrGe
      (List.insertionSort tbrGe (formats.filter progressivePlayable)) :=
    List.sorted_insertionSort _ _
  rcases hS : List.insertionSort tbrGe (formats.filter progressivePlayable) with _ | ⟨g, rest⟩
  · rw [hS] at hperm
    exact absurd (hperm.symm.subset hfil) (List.not_mem_nil f0)
  · rw [hS] at hperm hsorted
    have hg : g ∈ formats.filter progressivePlayable :=
      hperm.subset (List.mem_cons_self g rest)
    refine ⟨g, ?_, (List.mem_filter.mp hg).1, (List.mem_filter.mp hg).2, ?_⟩
    · show (List.insertionSort tbrGe (formats.filter progressivePlayable)).head? = some g
      rw [hS]; rfl
    · intro f hf hp
      have hmem : f ∈ g :: rest :=
        hperm.symm.subset (List.mem_filter.mpr ⟨hf, hp⟩)
      rcases List.mem_cons.mp hmem with rfl | hmem'
      · exact le_refl _
      · exact List.rel_of_sorted_cons hsorted f hmem'

/-- Witness for `pick_best_mp4_format_best` on the example descriptor. -/
theorem pick_best_mp4_format_best_witness :
    (∃ f ∈ exA, progressivePlayable f = true) ∧
      (∃ g, pick_best_mp4_format exA = some g ∧ g ∈ exA ∧
        progressivePlayable g = true ∧
        ∀ f ∈ exA, progressivePlayable f = true → tbrVal f ≤ tbrVal g) :=
  ⟨by decide, pick_best_mp4_format_best exA (by decide)⟩

/-- C2: when the descriptor has no progressive-playable stream,
`pick_best_mp4_format` returns `None` and `get_video` runs the
fetch-transcode path, making no proxy attempt, whatever the (hypothetical)
proxy outcome would have been. -/
theorem no_playable_fetch_transcode (formats : List Format)
    (h : ∀ f ∈ formats, progressivePlayable f = false) :
    pick_best_mp4_format formats = none ∧
      (∀ pr, get_video_delivery formats pr = .transcoded) ∧
      proxyAttempts formats = 0 := by
  have hnil : formats.filter progressivePlayable = [] := by
    rw [List.filter_eq_nil_iff]
    intro f hf
    simp [h f hf]
  have hpick : pick_best_mp4_format formats = none := by
    unfold pick_best_mp4_format
    rw [hnil]
    rfl
  refine ⟨hpick, ?_, ?_⟩
  · intro pr
    unfold get_video_delivery
    rw [hpick]
  · unfold proxyAttempts
    rw [hpick]

/-- Witness for `no_playable_fetch_transcode` on an HLS-only descriptor. -/
theorem no_playable_fetch_transcode_witness :
    (∀ f ∈ [fmtHls], progressivePlayable f = false) ∧
      (pick_best_mp4_format [fmtHls] = none ∧
        (∀ pr, get_video_delivery [fmtHls] pr = .transcoded) ∧
        proxyAttempts [fmtHls] = 0) :=
  ⟨by decide, no_playable_fetch_transcode [fmtHls] (by decide)⟩

/-- C8: when a progressive format with a truthy URL was selected and the
proxy attempt fails with an upstream HTTP error (status at least 400, or a
network failure before the response), `get_video` falls back to the
fetch-transcode path, and the proxy is attempted exactly once in the
request. -/
theorem proxy_error_falls_back_once (formats : List Format) (f : Format)
    (h : pick_best_mp4_format formats = some f) (hu : fmtUrlTruthy f = true) :
    (∀ s, 400 ≤ s → get_video_delivery formats (.response s) = .transcoded) ∧
      get_video_delivery formats .networkError = .transcoded ∧
      proxyAttempts formats = 1 := by
  refine ⟨?_, ?_, ?_⟩
  · intro s hs
    simp [get_video_delivery, h, hu, hs]
  · simp [get_video_delivery, h, hu]
  · simp [proxyAttempts, h, hu]

/-- Witness for `proxy_error_falls_back_once`. -/
theorem proxy_error_falls_back_once_witness :
    (pick_best_mp4_format [fmtH] = some fmtH ∧ fmtUrlTruthy fmtH = true) ∧
      ((∀ s, 400 ≤ s → get_video_delivery [fmtH] (.response s) = .transcoded) ∧
        get_video_delivery [fmtH] .networkError = .transcoded ∧
        proxyAttempts [fmtH] = 1) :=
  ⟨⟨by decide, by decide⟩,
    proxy_error_falls_back_once [fmtH] fmtH (by decide) (by decide)⟩

/-- C10: when the selected progressive format has an absent or empty source
URL, `get_video` never attempts the proxy and goes straight to the
fetch-transcode path. -/
theorem missing_url_skips_proxy (formats : List Format) (f : Format)
    (h : pick_best_mp4_format formats = some f)
    (hu : f.url = none ∨ f.url = some "") :
    (∀ pr, get_video_delivery formats pr = .transcoded) ∧
      proxyAttempts formats = 0 := by
  have hfalse : fmtUrlTruthy f = false := by
    rcases hu with h1 | h1 <;> simp [fmtUrlTruthy, h1]
  constructor
  · intro pr
    simp [get_video_delivery, h, hfalse]
  · simp [proxyAttempts, h, hfalse]

/-- Witness for `missing_url_skips_proxy`. -/
theorem missing_url_skips_proxy_witness :
    (pick_best_mp4_format [fmtNoUrl] = some fmtNoUrl ∧
        (fmtNoUrl.url = none ∨ fmtNoUrl.url = some "")) ∧
      ((∀ pr, get_video_delivery [fmtNoUrl] pr = .transcoded) ∧
        proxyAttempts [fmtNoUrl] = 0) :=
  ⟨⟨by decide, Or.inl (by decide)⟩,
    missing_url_skips_proxy [fmtNoUrl] fmtNoUrl (by decide) (Or.inl (by decide))⟩

/-- C9 counterexample: with a selected stream whose metadata records a
required `Referer` header, the proxy attempt still carries only the fixed
User-Agent — the stream's required headers are not merged into the outbound
request, contradicting the claimed header-merging behavior. -/
theorem proxy_headers_not_merged_cex :
    get_video_delivery [fmtH] (.response 200) = .proxied proxyRequestHeaders ∧
      fmtH.httpHeaders = [("Referer", "https://example.com/")] ∧
      proxyRequestHeaders.all (fun p => p.1 != "Referer") = true := by
  decide

/-- C9 (amended): every proxy attempt of `get_video` carries exactly the
fixed User-Agent header; the selected stream's required headers are never
added to the outbound request. -/
theorem proxy_headers_fixed_user_agent (formats : List Format) (pr : ProxyOutcome)
    (hs : List (String × String))
    (h : get_video_delivery formats pr = .proxied hs) :
    hs = [("User-Agent", USER_AGENT)] := by
  rcases hp : pick_best_mp4_format formats with _ | f
  · simp [get_video_delivery, hp] at h
  · cases hu : fmtUrlTruthy f
    · simp [get_video_delivery, hp, hu] at h
    · cases pr with
      | response s =>
        by_cases h4 : 400 ≤ s
        · simp [get_video_delivery, hp, hu, h4] at h
        · simp [get_video_delivery, hp, hu, h4, proxyRequestHeaders] at h
          exact h.symm
      | networkError => simp [get_video_delivery, hp, hu] at h

/-- Witness for `proxy_headers_fixed_user_agent`. -/
theorem proxy_headers_fixed_user_agent_witness :
    get_video_delivery [fmtH] (.response 200) = .proxied proxyRequestHeaders ∧
      proxyRequestHeaders = [("User-Agent", USER_AGENT)] :=
  ⟨by decide,
    proxy_headers_fixed_user_agent [fmtH] (.response 200) proxyRequestHeaders (by decide)⟩

/-- C3: whenever ffmpeg is available (so the workspace gets allocated) and
the download/convert step or the artifact resolution fails, the pipeline
cleans the workspace up and then propagates `HTTPException(500)`: the event
trace is exactly allocation followed by cleanup, so no failing call leaves
a workspace behind. -/
theorem pipeline_failure_cleans_workspace (kap : Char → List Char) (env : PipelineEnv)
    (hff : env.ffmpegAvailable = true)
    (hfail : env.downloadOk = false ∨
      hasFile env.workspaceFiles (exactMp4 env.downloadedBasename) = false) :
    download_and_convert_with_ytdlp kap env =
      ([.allocWorkspace, .cleanupWorkspace], .downloadError 500) := by
  unfold download_and_convert_with_ytdlp
  rcases hfail with h1 | h1
  · simp [hff, h1]
  · cases hdl : env.downloadOk <;> simp [hff, hdl, h1]

/-- Witness for `pipeline_failure_cleans_workspace`. -/
theorem pipeline_failure_cleans_workspace_witness :
    (envFail.ffmpegAvailable = true ∧
        (envFail.downloadOk = false ∨
          hasFile envFail.workspaceFiles (exactMp4 envFail.downloadedBasename) = false)) ∧
      download_and_convert_with_ytdlp asciiKappa envFail =
        ([.allocWorkspace, .cleanupWorkspace], .downloadError 500) :=
  ⟨⟨by decide, Or.inl (by decide)⟩,
    pipeline_failure_cleans_workspace asciiKappa envFail (by decide) (Or.inl (by decide))⟩

/-- C4: when ffmpeg is not resolvable, the pipeline raises
`HTTPException(500)` immediately: the event trace is empty, so no temporary
workspace is ever created. -/
theorem pipeline_engine_unavailable_no_workspace (kap : Char → List Char)
    (env : PipelineEnv) (h : env.ffmpegAvailable = false) :
    download_and_convert_with_ytdlp kap env = ([], .engineUnavailable 500) := by
  unfold download_and_convert_with_ytdlp
  simp [h]

/-- Witness for `pipeline_engine_unavailable_no_workspace`. -/
theorem pipeline_engine_unavailable_no_workspace_witness :
    envEngine.ffmpegAvailable = false ∧
      download_and_convert_with_ytdlp asciiKappa envEngine = ([], .engineUnavailable 500) :=
  ⟨by decide, pipeline_engine_unavailable_no_workspace asciiKappa envEngine (by decide)⟩

/-- C5 counterexample: the download step succeeded and the workspace does
contain an `.mp4` file, but not under the exact basename of the download;
the pipeline nevertheless fails with the 500 download error (after
cleanup) instead of falling back to the most-recently-modified `.mp4`,
refuting the claimed fallback and the claim that it fails only when no
`.mp4` exists. -/
theorem artifact_no_fallback_cex :
    envC5.ffmpegAvailable = true ∧ envC5.downloadOk = true ∧
      envC5.workspaceFiles.any isMp4File = true ∧
      download_and_convert_with_ytdlp asciiKappa envC5 =
        ([.allocWorkspace, .cleanupWorkspace], .downloadError 500) := by
  decide

/-- C5 (amended): artifact resolution looks only for the exact
"download stem + `.mp4`" file in the workspace: if it is present the
pipeline succeeds with that path, and if it is absent the pipeline fails
with the 500 download error (workspace cleaned up), even when other `.mp4`
files exist — there is no fallback search. -/
theorem artifact_exact_only (kap : Char → List Char) (env : PipelineEnv)
    (hff : env.ffmpegAvailable = true) (hdl : env.downloadOk = true) :
    (hasFile env.workspaceFiles (exactMp4 env.downloadedBasename) = true →
      download_and_convert_with_ytdlp kap env =
        ([.allocWorkspace],
          .ok (exactMp4 env.downloadedBasename)
            (sanitize_filename kap (strOr env.title (strOr env.videoId "video")) "mp4"))) ∧
    (hasFile env.workspaceFiles (exactMp4 env.downloadedBasename) = false →
      download_and_convert_with_ytdlp kap env =
        ([.allocWorkspace, .cleanupWorkspace], .downloadError 500)) := by
  constructor <;> intro hfile <;> unfold download_and_convert_with_ytdlp <;>
    simp [hff, hdl, hfile]

/-- Witness for `artifact_exact_only`. -/
theorem artifact_exact_only_witness :
    (envOk.ffmpegAvailable = true ∧ envOk.downloadOk = true) ∧
      ((hasFile envOk.workspaceFiles (exactMp4 envOk.downloadedBasename) = true →
        download_and_convert_with_ytdlp asciiKappa envOk =
          ([.allocWorkspace],
            .ok (exactMp4 envOk.downloadedBasename)
              (sanitize_filename asciiKappa
                (strOr envOk.title (strOr envOk.videoId "video")) "mp4"))) ∧
      (hasFile envOk.workspaceFiles (exactMp4 envOk.downloadedBasename) = false →
        download_and_convert_with_ytdlp asciiKappa envOk =
          ([.allocWorkspace, .cleanupWorkspace], .downloadError 500))) :=
  ⟨⟨by decide, by decide⟩, artifact_exact_only asciiKappa envOk (by decide) (by decide)⟩

/-- Helper: `asciiKappa` is the identity on ASCII characters. -/
theorem asciiKappa_id (c : Char) (h : c.toNat ≤ 127) : asciiKappa c = [c] := by
  simp [asciiKappa, h]

/-- Helper: `asciiKappa` only produces ASCII characters. -/
theorem asciiKappa_ascii (c c' : Char) (h : c' ∈ asciiKappa c) : c'.toNat ≤ 127 := by
  unfold asciiKappa at h
  by_cases hc : c.toNat ≤ 127
  · rw [if_pos hc] at h
    rcases List.mem_singleton.mp h with rfl
    exact hc
  · rw [if_neg hc] at h
    exact absurd h (List.not_mem_nil c')

/-- Helper: every character emitted by the reserved-character substitution
is either the replacement space or a non-reserved input character. -/
theorem mem_replaceBadAux {c : Char} :
    ∀ {b : Bool} {l : List Char}, c ∈ replaceBadAux b l →
      c = ' ' ∨ (c ∈ l ∧ isBadChar c = false) := by
  intro b l
  induction l generalizing b with
  | nil => intro h; exact absurd h (List.not_mem_nil c)
  | cons d ds ih =>
    intro h
    unfold replaceBadAux at h
    by_cases hd : isBadChar d
    · rw [if_pos hd] at h
      cases hb : b
      · rw [hb, if_neg (by simp)] at h
        rcases List.mem_cons.mp h with rfl | h'
        · exact Or.inl rfl
        · rcases ih h' with h1 | ⟨h2, h3⟩
          · exact Or.inl h1
          · exact Or.inr ⟨List.mem_cons_of_mem d h2, h3⟩
      · rw [hb, if_pos rfl] at h
        rcases ih h with h1 | ⟨h2, h3⟩
        · exact Or.inl h1
        · exact Or.inr ⟨List.mem_cons_of_mem d h2, h3⟩
    · rw [if_neg hd] at h
      rcases List.mem_cons.mp h with rfl | h'
      · exact Or.inr ⟨List.mem_cons_self c ds, by simpa using hd⟩
      · rcases ih h' with h1 | ⟨h2, h3⟩
        · exact Or.inl h1
        · exact Or.inr ⟨List.mem_cons_of_mem d h2, h3⟩

/-- Helper: every character emitted by the whitespace-run collapse is either
a space or a non-whitespace input character. -/
theorem mem_collapseAux {c : Char} :
    ∀ {b : Bool} {l : List Char}, c ∈ collapseAux b l →
      c = ' ' ∨ (c ∈ l ∧ isSpaceChar c = false) := by
  intro b l
  induction l generalizing b with
  | nil => intro h; exact absurd h (List.not_mem_nil c)
  | cons d ds ih =>
    intro h
    unfold collapseAux at h
    by_cases hd : isSpaceChar d
    · rw [if_pos hd] at h
      cases hb : b
      · rw [hb, if_neg (by simp)] at h
        rcases List.mem_cons.mp h with rfl | h'
        · exact Or.inl rfl
        · rcases ih h' with h1 | ⟨h2, h3⟩
          · exact Or.inl h1
          · exact Or.inr ⟨List.mem_cons_of_mem d h2, h3⟩
      · rw [hb, if_pos rfl] at h
        rcases ih h with h1 | ⟨h2, h3⟩
        · exact Or.inl h1
        · exact Or.inr ⟨List.mem_cons_of_mem d h2, h3⟩
    · rw [if_neg hd] at h
      rcases List.mem_cons.mp h with rfl | h'
      · exact Or.inr ⟨List.mem_cons_self c ds, by simpa using hd⟩
      · rcases ih h' with h1 | ⟨h2, h3⟩
        · exact Or.inl h1
        · exact Or.inr ⟨List.mem_cons_of_mem d h2, h3⟩

/-- Helper: stripping only removes characters. -/
theorem mem_stripWs {c : Char} {l : List Char} (h : c ∈ stripWs l) : c ∈ l := by
  unfold stripWs dropTrail dropLead at h
  have h1 : c ∈ (dropLead l).reverse :=
    ((List.dropWhile_sublist _).subset) (List.mem_reverse.mp h)
  have h2 : c ∈ dropLead l := List.mem_reverse.mp (by simpa using h1)
  exact (List.dropWhile_sublist _).subset h2

/-- Helper: the NFKD-then-ASCII projection is the identity on all-ASCII
input (ASCII characters have no decomposition). -/
theorem nfkd_ascii_id (kap : Char → List Char)
    (hid : ∀ c, c.toNat ≤ 127 → kap c = [c]) :
    ∀ {l : List Char}, (∀ c ∈ l, c.toNat ≤ 127) → nfkd_ascii kap l = l := by
  intro l
  induction l with
  | nil => intro _; rfl
  | cons d ds ih =>
    intro h
    unfold nfkd_ascii
    rw [List.flatMap_cons, hid d (h d (List.mem_cons_self d ds))]
    have := ih (fun c hc => h c (List.mem_cons_of_mem d hc))
    unfold nfkd_ascii at this
    rw [this]
    rfl

/-- Helper: the reserved-character substitution is the identity on input
without reserved characters. -/
theorem replaceBadAux_id :
    ∀ {l : List Char}, (∀ c ∈ l, isBadChar c = false) →
      ∀ b, replaceBadAux b l = l := by
  intro l
  induction l with
  | nil => intro _ b; rfl
  | cons d ds ih =>
    intro h b
    unfold replaceBadAux
    rw [if_neg (by simp [h d (List.mem_cons_self d ds)])]
    rw [ih (fun c hc => h c (List.mem_cons_of_mem d hc)) false]

/-- Helper: leading strip is the identity without leading whitespace. -/
theorem dropLead_id {l : List Char} (h : noLead l = true) : dropLead l = l := by
  cases l with
  | nil => rfl
  | cons c cs =>
    unfold noLead at h
    unfold dropLead
    rw [List.dropWhile_cons, if_neg (by simp_all)]

/-- Helper: trailing strip is the identity without trailing whitespace. -/
theorem dropTrail_id {l : List Char} (h : noLead l.reverse = true) : dropTrail l = l := by
  unfold dropTrail
  have : l.reverse.dropWhile isSpaceChar = l.reverse := by
    have := dropLead_id h
    unfold dropLead at this
    exact this
  rw [this, List.reverse_reverse]

/-- Helper: the whitespace collapse is the identity when every whitespace
character is a plain space and no two are adjacent. -/
theorem collapseAux_id :
    ∀ {l : List Char}, (∀ c ∈ l, isSpaceChar c = false ∨ c = ' ') →
      ∀ b, noAdjAux b l = true → collapseAux b l = l := by
  intro l
  induction l with
  | nil => intro _ b _; rfl
  | cons d ds ih =>
    intro h b hadj
    unfold noAdjAux at hadj
    rw [Bool.and_eq_true] at hadj
    obtain ⟨hnb, hrest⟩ := hadj
    unfold collapseAux
    by_cases hd : isSpaceChar d
    · have hd' : d = ' ' := by
        rcases h d (List.mem_cons_self d ds) with h1 | h1
        · rw [h1] at hd; exact absurd hd (by simp)
        · exact h1
      have hb : b = false := by
        cases hb : b
        · rfl
        · rw [hb, hd] at hnb; exact absurd hnb (by simp)
      rw [if_pos hd, hb, if_neg (by simp)]
      rw [hd] at hrest
      rw [ih (fun c hc => h c (List.mem_cons_of_mem d hc)) true hrest, hd']
    · rw [if_neg hd]
      rw [Bool.not_eq_true] at hd
      rw [hd] at hrest
      rw [ih (fun c hc => h c (List.mem_cons_of_mem d hc)) false hrest]

/-- Helper: leading strip leaves no leading whitespace. -/
theorem noLead_dropLead (l : List Char) : noLead (dropLead l) = true := by
  induction l with
  | nil => rfl
  | cons c cs ih =>
    unfold dropLead
    rw [List.dropWhile_cons]
    by_cases hc : isSpaceChar c
    · rw [if_pos (by simp [hc])]
      exact ih
    · rw [if_neg (by simp [hc])]
      unfold noLead
      simp [hc]

/-- Helper: trailing strip preserves the absence of leading whitespace. -/
theorem noLead_dropTrail {l : List Char} (h : noLead l = true) :
    noLead (dropTrail l) = true := by
  obtain ⟨t, ht⟩ : ∃ t, t ++ l.reverse.dropWhile isSpaceChar = l.reverse :=
    List.dropWhile_suffix _
  have hl : dropTrail l ++ t.reverse = l := by
    have := congrArg List.reverse ht
    rw [List.reverse_append] at this
    simpa [dropTrail] using this
  rcases hD : dropTrail l with _ | ⟨c, cs⟩
  · rfl
  · rw [hD] at hl
    rw [← hl] at h
    unfold noLead at h ⊢
    simpa using h

/-- Helper: the whitespace collapse preserves the absence of leading
whitespace. -/
theorem noLead_collapseAux {l : List Char} (h : noLead l = true) :
    noLead (collapseAux false l) = true := by
  cases l with
  | nil => rfl
  | cons c cs =>
    unfold noLead at h
    unfold collapseAux
    rw [if_neg (by simp_all)]
    unfold noLead
    exact h

/-- Helper: the whitespace collapse never emits two adjacent whitespace
characters. -/
theorem noAdjAux_collapseAux :
    ∀ (l : List Char) (pb b : Bool), (pb = true → b = true) →
      noAdjAux pb (collapseAux b l) = true := by
  intro l
  induction l with
  | nil => intro pb b _; rfl
  | cons c cs ih =>
    intro pb b hpb
    unfold collapseAux
    by_cases hc : isSpaceChar c
    · rw [if_pos hc]
      cases hb : b
      · have hpb' : pb = false := by
          cases hp : pb
          · rfl
          · exact absurd (hpb hp) (by simp [hb])
        rw [if_neg (by simp)]
        unfold noAdjAux
        rw [hpb']
        simpa using ih true true (fun _ => rfl)
      · rw [if_pos rfl]
        exact ih pb true (fun _ => rfl)
    · rw [if_neg hc]
      unfold noAdjAux
      rw [Bool.not_eq_true] at hc
      rw [hc]
      simpa using ih false false (fun h => h)

/-- Helper: a list without whitespace has no adjacent whitespace. -/
theorem noAdjAux_of_nonspace :
    ∀ {l : List Char}, (∀ c ∈ l, isSpaceChar c = false) →
      ∀ pb, noAdjAux pb l = true := by
  intro l
  induction l with
  | nil => intro _ pb; rfl
  | cons c cs ih =>
    intro h pb
    unfold noAdjAux
    rw [h c (List.mem_cons_self c cs)]
    simpa using ih (fun d hd => h d (List.mem_cons_of_mem c hd)) false

/-- Helper: appending whitespace-free characters preserves the
no-adjacent-whitespace invariant. -/
theorem noAdjAux_append :
    ∀ {l₁ : List Char} {pb : Bool} {l₂ : List Char},
      noAdjAux pb l₁ = true → (∀ c ∈ l₂, isSpaceChar c = false) →
      noAdjAux pb (l₁ ++ l₂) = true := by
  intro l₁
  induction l₁ with
  | nil => intro pb l₂ _ h₂; exact noAdjAux_of_nonspace h₂ pb
  | cons c cs ih =>
    intro pb l₂ h₁ h₂
    unfold noAdjAux at h₁
    rw [Bool.and_eq_true] at h₁
    rw [List.cons_append]
    unfold noAdjAux
    rw [Bool.and_eq_true]
    exact ⟨h₁.1, ih h₁.2 h₂⟩

/-- Helper: the cleaning stage produces only ASCII characters. -/
theorem cleanName_ascii (kap : Char → List Char)
    (hout : ∀ d c, c ∈ kap d → c.toNat ≤ 127) (l : List Char) :
    ∀ c ∈ cleanName kap l, c.toNat ≤ 127 := by
  intro c hc
  rcases mem_collapseAux hc with rfl | ⟨hc1, _⟩
  · decide
  · rcases mem_replaceBadAux (mem_stripWs hc1) with rfl | ⟨hc2, _⟩
    · decide
    · obtain ⟨d, _, hd2⟩ := List.mem_flatMap.mp hc2
      exact hout d c hd2

/-- Helper: the cleaning stage produces no reserved characters. -/
theorem cleanName_noBad (kap : Char → List Char) (l : List Char) :
    ∀ c ∈ cleanName kap l, isBadChar c = false := by
  intro c hc
  rcases mem_collapseAux hc with rfl | ⟨hc1, _⟩
  · decide
  · rcases mem_replaceBadAux (mem_stripWs hc1) with rfl | ⟨_, hc3⟩
    · decide
    · exact hc3

/-- Helper: every whitespace character of a cleaned name is a plain
space. -/
theorem cleanName_spaceOk (kap : Char → List Char) (l : List Char) :
    ∀ c ∈ cleanName kap l, isSpaceChar c = false ∨ c = ' ' := by
  intro c hc
  rcases mem_collapseAux hc with rfl | ⟨_, hc2⟩
  · exact Or.inr rfl
  · exact Or.inl hc2

/-- Helper: a cleaned name has no adjacent whitespace. -/
theorem cleanName_noAdj (kap : Char → List Char) (l : List Char) :
    noAdjAux false (cleanName kap l) = true :=
  noAdjAux_collapseAux _ false false (fun h => h)

/-- Helper: a cleaned name has no leading whitespace. -/
theorem cleanName_noLead (kap : Char → List Char) (l : List Char) :
    noLead (cleanName kap l) = true := by
  unfold cleanName stripWs
  exact noLead_collapseAux (noLead_dropTrail (noLead_dropLead _))

/-- Helper: the cleaning stage is the identity on names that already
satisfy all its output invariants. -/
theorem cleanName_fixed (kap : Char → List Char)
    (hid : ∀ c, c.toNat ≤ 127 → kap c = [c]) (l : List Char)
    (hascii : ∀ c ∈ l, c.toNat ≤ 127)
    (hnobad : ∀ c ∈ l, isBadChar c = false)
    (hspace : ∀ c ∈ l, isSpaceChar c = false ∨ c = ' ')
    (hadj : noAdjAux false l = true)
    (hlead : noLead l = true)
    (htrail : noLead l.reverse = true) :
    cleanName kap l = l := by
  unfold cleanName stripWs
  rw [nfkd_ascii_id kap hid hascii, replaceBadAux_id hnobad false, dropLead_id hlead,
    dropTrail_id htrail, collapseAux_id hspace false hadj]

/-- Helper: character-level form of the amended C6 statement. -/
theorem sanitizeChars_twice (kap : Char → List Char)
    (hid : ∀ c, c.toNat ≤ 127 → kap c = [c])
    (hout : ∀ d c, c ∈ kap d → c.toNat ≤ 127)
    (x ext : List Char)
    (hext : ∀ c ∈ ext, c.toNat ≤ 127 ∧ isBadChar c = false ∧ isSpaceChar c = false) :
    sanitizeChars kap (sanitizeChars kap x ext) ext =
      sanitizeChars kap x ext ++ '.' :: ext := by
  set n := if cleanName kap x = [] then "video".data else cleanName kap x with hn
  have hnne : n ≠ [] := by
    rw [hn]
    by_cases hc : cleanName kap x = []
    · rw [if_pos hc]; decide
    · rw [if_neg hc]; exact hc
  have hnascii : ∀ c ∈ n, c.toNat ≤ 127 := by
    rw [hn]
    by_cases hc : cleanName kap x = []
    · rw [if_pos hc]; decide
    · rw [if_neg hc]; exact cleanName_ascii kap hout x
  have hnnobad : ∀ c ∈ n, isBadChar c = false := by
    rw [hn]
    by_cases hc : cleanName kap x = []
    · rw [if_pos hc]; decide
    · rw [if_neg hc]; exact cleanName_noBad kap x
  have hnspace : ∀ c ∈ n, isSpaceChar c = false ∨ c = ' ' := by
    rw [hn]
    by_cases hc : cleanName kap x = []
    · rw [if_pos hc]; intro c hcm; left; revert c; decide
    · rw [if_neg hc]; exact cleanName_spaceOk kap x
  have hnadj : noAdjAux false n = true := by
    rw [hn]
    by_cases hc : cleanName kap x = []
    · rw [if_pos hc]; decide
    · rw [if_neg hc]; exact cleanName_noAdj kap x
  have hnlead : noLead n = true := by
    rw [hn]
    by_cases hc : cleanName kap x = []
    · rw [if_pos hc]; decide
    · rw [if_neg hc]; exact cleanName_noLead kap x
  have hdotext : ∀ c ∈ '.' :: ext, isSpaceChar c = false := by
    intro c hc
    rcases List.mem_cons.mp hc with rfl | h'
    · decide
    · exact (hext c h').2.2
  have hyascii : ∀ c ∈ n ++ '.' :: ext, c.toNat ≤ 127 := by
    intro c hc
    rcases List.mem_append.mp hc with h | h
    · exact hnascii c h
    · rcases List.mem_cons.mp h with rfl | h'
      · decide
      · exact (hext c h').1
  have hynobad : ∀ c ∈ n ++ '.' :: ext, isBadChar c = false := by
    intro c hc
    rcases List.mem_append.mp hc with h | h
    · exact hnnobad c h
    · rcases List.mem_cons.mp h with rfl | h'
      · decide
      · exact (hext c h').2.1
  have hyspace : ∀ c ∈ n ++ '.' :: ext, isSpaceChar c = false ∨ c = ' ' := by
    intro c hc
    rcases List.mem_append.mp hc with h | h
    · exact hnspace c h
    · exact Or.inl (hdotext c h)
  have hyadj : noAdjAux false (n ++ '.' :: ext) = true :=
    noAdjAux_append hnadj hdotext
  have hylead : noLead (n ++ '.' :: ext) = true := by
    rcases hN : n with _ | ⟨c, cs⟩
    · exact absurd hN hnne
    · rw [hN] at hnlead
      rw [List.cons_append]
      unfold noLead at hnlead ⊢
      exact hnlead
  have hytrail : noLead (n ++ '.' :: ext).reverse = true := by
    rw [List.reverse_append, List.reverse_cons]
    rcases hE : ext.reverse with _ | ⟨e, es⟩
    · rfl
    · have he : e ∈ ext := List.mem_reverse.mp (hE ▸ List.mem_cons_self e es)
      have hsp : isSpaceChar e = false := (hext e he).2.2
      simp [noLead, hsp]
  have hfix : cleanName kap (n ++ '.' :: ext) = n ++ '.' :: ext :=
    cleanName_fixed kap hid _ hyascii hynobad hyspace hyadj hylead hytrail
  have hx : sanitizeChars kap x ext = n ++ '.' :: ext := by
    unfold sanitizeChars
    rw [← hn]
  rw [hx]
  unfold sanitizeChars
  rw [hfix, if_neg (by simp)]

/-- C6 (amended): `sanitize_filename` is not idempotent; because the
extension is appended unconditionally, applying it twice appends the
extension once more: for every name, and every ASCII extension free of
reserved and whitespace characters,
`sanitize(sanitize(x)) = sanitize(x) ++ "." ++ ext`. -/
theorem sanitize_filename_twice (kap : Char → List Char)
    (hid : ∀ c, c.toNat ≤ 127 → kap c = [c])
    (hout : ∀ d c, c ∈ kap d → c.toNat ≤ 127)
    (x ext : String)
    (hext : ∀ c ∈ ext.data, c.toNat ≤ 127 ∧ isBadChar c = false ∧ isSpaceChar c = false) :
    sanitize_filename kap (sanitize_filename kap x ext) ext =
      sanitize_filename kap x ext ++ "." ++ ext := by
  apply String.ext
  show sanitizeChars kap (sanitizeChars kap x.data ext.data) ext.data =
    (sanitize_filename kap x ext ++ "." ++ ext).data
  rw [String.data_append, String.data_append]
  show _ = sanitizeChars kap x.data ext.data ++ ['.'] ++ ext.data
  rw [sanitizeChars_twice kap hid hout x.data ext.data hext, List.append_assoc]
  rfl

/-- C6 counterexample: on the plain ASCII title `"a"` the sanitizer is not
idempotent: one application yields `"a.mp4"`, a second yields
`"a.mp4.mp4"`. -/
theorem sanitize_not_idempotent_cex :
    sanitize_filename asciiKappa (sanitize_filename asciiKappa "a" "mp4") "mp4" ≠
        sanitize_filename asciiKappa "a" "mp4" ∧
      sanitize_filename asciiKappa "a" "mp4" = "a.mp4" ∧
      sanitize_filename asciiKappa (sanitize_filename asciiKappa "a" "mp4") "mp4" =
        "a.mp4.mp4" := by
  refine ⟨?_, ?_, ?_⟩ <;> decide

/-- Witness for `sanitize_filename_twice`. -/
theorem sanitize_twice_appends_ext_witness :
    (∀ c ∈ ("mp4" : String).data,
        c.toNat ≤ 127 ∧ isBadChar c = false ∧ isSpaceChar c = false) ∧
      sanitize_filename asciiKappa (sanitize_filename asciiKappa "a" "mp4") "mp4" =
        sanitize_filename asciiKappa "a" "mp4" ++ "." ++ "mp4" :=
  ⟨by decide,
    sanitize_filename_twice asciiKappa asciiKappa_id asciiKappa_ascii "a" "mp4" (by decide)⟩

/-- C7 counterexample: for the title `"clip.mp4"`, whose cleaned name
already carries the requested extension, the sanitizer appends the
extension again, yielding `"clip.mp4.mp4"` - so the extension is not
appended "only if not already present" and the result does not end with it
exactly once. -/
theorem sanitize_double_extension_cex :
    cleanName asciiKappa ("clip.mp4" : String).data = ("clip.mp4" : String).data ∧
      sanitize_filename asciiKappa "clip.mp4" "mp4" = "clip.mp4.mp4" := by
  constructor <;> decide

/-- C7 (amended): `sanitize_filename` always returns a non-empty string
ending in `"." ++ ext` (defaulting the base name to `"video"` when the
cleaned name is empty), but the extension is appended unconditionally
rather than only when absent. -/
theorem sanitize_nonempty_ends_with_ext (kap : Char → List Char) (name ext : String) :
    sanitize_filename kap name ext ≠ "" ∧
      List.IsSuffix ('.' :: ext.data) (sanitize_filename kap name ext).data ∧
      (cleanName kap name.data = [] →
        sanitize_filename kap name ext = "video" ++ "." ++ ext) := by
  refine ⟨?_, ?_, ?_⟩
  · intro h
    have h2 : sanitizeChars kap name.data ext.data = ("" : String).data :=
      congrArg String.data h
    unfold sanitizeChars at h2
    exact absurd h2 (by simp)
  · exact ⟨_, rfl⟩
  · intro h
    apply String.ext
    show sanitizeChars kap name.data ext.data = _
    unfold sanitizeChars
    rw [if_pos h, String.data_append, String.data_append]
    rfl

/-- Witness for `sanitize_nonempty_ends_with_ext`, discharging its inner
hypothesis on an input whose cleaned name is empty. -/
theorem sanitize_nonempty_ends_with_ext_witness :
    cleanName asciiKappa (":::" : String).data = [] ∧
      sanitize_filename asciiKappa ":::" "mp4" = "video" ++ "." ++ "mp4" :=
  ⟨by decide,
    (sanitize_nonempty_ends_with_ext asciiKappa ":::" "mp4").2.2 (by decide)⟩
